import Mathlib

/-!
Shallow embedding of the `montecarlo` package: a 1-D Ising spin chain with
a `SpinConfig1D` configuration class and an `IsingHamiltonian1D` energy
model, plus the exact thermal averager and Metropolis sweep described in the
design document (those two, together with the integer-encoding setter, are
exercised by the test suite but absent from the shipped module, so they are
modelled from the specification text).

Python floats are modelled as `ℚ` where the arithmetic is plain field
arithmetic (the Hamiltonian) and as `ℝ` where `exp` appears (Boltzmann
weights, Metropolis acceptance).  Mutation is modelled by explicit state
passing: a method that mutates `self` returns the updated object, and a
raised exception is an `Except.error`.
-/

namespace MonteCarlo

/-- Error taxonomy: the named validation failures of the design document,
plus `valueError` for the `ValueError` that Python's `random.sample` raises
inside `SpinConfig1D.initialize` when the requested sample size exceeds the
population. -/
inductive MCError where
  | invalidSize
  | invalidMagnetization
  | encodingRange
  | indexOutOfRange
  | invalidTemperature
  | sizeTooLarge
  | valueError
deriving DecidableEq

/-- `SpinConfig1D`: chain length `N`, periodic-boundary flag `pbc`, and the
spin array `config` (a numpy integer array in the source, a list of integers
here). -/
structure SpinConfig1D where
  N : ℕ
  pbc : Bool
  config : List ℤ
deriving DecidableEq

/-- `SpinConfig1D.__init__(N, pbc)`: `self.config = np.zeros(N, dtype=int)`. -/
def mkSpinConfig1D (N : ℕ) (pbc : Bool) : SpinConfig1D :=
  ⟨N, pbc, List.replicate N 0⟩

/-- numpy integer indexing into an array of length `len`: an index
`i ∈ [0, len)` is used as is, a negative `i ∈ [-len, 0)` addresses
`len + i`, and anything else raises `IndexError`. -/
def npIndex (len : ℕ) (i : ℤ) : Option ℕ :=
  if 0 ≤ i ∧ i < (len : ℤ) then some i.toNat
  else if -(len : ℤ) ≤ i ∧ i < 0 then some (i + len).toNat
  else none

/-- `SpinConfig1D.__getitem__(i)`: `return self.config[i]` (numpy indexing,
so a raised `IndexError` is the error case). -/
def SpinConfig1D.getitem (c : SpinConfig1D) (i : ℤ) : Except MCError ℤ :=
  match npIndex c.config.length i with
  | some j => .ok (c.config.getD j 0)
  | none => .error .indexOutOfRange

/-- The branch of `flip_site`: `if self.config[i] == 1: ... = 0 else: ... = 1`. -/
def flipVal (x : ℤ) : ℤ :=
  if x = 1 then 0 else 1

/-- `SpinConfig1D.flip_site(i)`: reads `self.config[i]` and writes the
toggled value back (numpy indexing in both cases, same index). -/
def SpinConfig1D.flip_site (c : SpinConfig1D) (i : ℤ) : Except MCError SpinConfig1D :=
  match npIndex c.config.length i with
  | some j => .ok { c with config := c.config.set j (flipVal (c.config.getD j 0)) }
  | none => .error .indexOutOfRange

/-- `flip_site` at an in-range natural index: the state update it performs. -/
def SpinConfig1D.flipAt (c : SpinConfig1D) (j : ℕ) : SpinConfig1D :=
  { c with config := c.config.set j (flipVal (c.config.getD j 0)) }

/-- The outcomes Python's `random.sample(range(0, N-1), M)` can produce:
`M` distinct indices, each drawn from `{0, …, N-2}`. -/
def IsSample (N M : ℕ) (sample : List ℕ) : Prop :=
  sample.Nodup ∧ sample.length = M ∧ ∀ x ∈ sample, x < N - 1

/-- `SpinConfig1D.initialize(M)`: resets `config` to `np.zeros(N)`, draws
`randomlist = random.sample(range(0, self.N-1), M)` — which raises
`ValueError` when `M` exceeds the population size `N - 1` — and sets
`config[i] = 1` for each drawn `i`.  The drawn list is passed in explicitly
as the outcome of the random source. -/
def SpinConfig1D.initialize (c : SpinConfig1D) (M : ℕ) (sample : List ℕ) :
    Except MCError SpinConfig1D :=
  if M ≤ c.N - 1 then
    .ok { c with
          config := sample.foldl (fun l i => l.set i 1) (List.replicate c.N (0 : ℤ)) }
  else .error .valueError

/-- `IsingHamiltonian1D`: coupling `J`, per-site field `h`, chemical
potential `mu`, periodic-boundary flag `pbc`. -/
structure IsingHamiltonian1D where
  J : ℚ
  h : List ℚ
  mu : ℚ
  pbc : Bool
deriving DecidableEq

/-- `IsingHamiltonian1D.expectation_value(config)`: the bond loop over
`range(config.N - 1)`, the conditional wraparound bond when `self.pbc`, and
the field loop over `range(config.N)` (the Python truthiness test
`if config[i]:` is spin `≠ 0`). -/
def IsingHamiltonian1D.expectation_value (H : IsingHamiltonian1D)
    (config : SpinConfig1D) : ℚ :=
  let e1 : ℚ :=
    (List.range (config.N - 1)).foldl
      (fun e i =>
        if config.config.getD i 0 = config.config.getD (i + 1) 0 then e - H.J
        else e + H.J)
      0
  let e2 : ℚ :=
    if H.pbc then
      if config.config.getD (config.N - 1) 0 = config.config.getD 0 0 then e1 - H.J
      else e1 + H.J
    else e1
  (List.range config.N).foldl
    (fun e i =>
      if config.config.getD i 0 ≠ 0 then e - H.mu * H.h.getD i 0
      else e + H.mu * H.h.getD i 0)
    e2

/-- `copy.deepcopy` of a configuration: an independent object with the same
state (in a pure embedding, the value itself). -/
def cp_deepcopy (c : SpinConfig1D) : SpinConfig1D := c

/-- `IsingHamiltonian1D.delta_e_for_flip(i, config)`: deep-copies `config`,
flips site `i` on the copy, and returns the pair
`(config_trial, expectation_value(config_trial) - expectation_value(config))`.
The embedding also returns, as the outer second component, the state of the
caller's `config` object after the call (all mutation went through the deep
copy, so it is the unchanged `config`). -/
def IsingHamiltonian1D.delta_e_for_flip (H : IsingHamiltonian1D) (i : ℤ)
    (config : SpinConfig1D) : Except MCError ((SpinConfig1D × ℚ) × SpinConfig1D) :=
  match (cp_deepcopy config).flip_site i with
  | .ok trial =>
      .ok ((trial, H.expectation_value trial - H.expectation_value config), config)
  | .error e => .error e

/-! ### Loop-to-sum lemmas -/

/-- A `foldl` over `List.range n` whose step adds `F i` to the accumulator
is the accumulator plus the sum of `F` over `Finset.range n`. -/
theorem foldl_range_step_sum (F : ℕ → ℚ) (step : ℚ → ℕ → ℚ)
    (hstep : ∀ e i, step e i = e + F i) :
    ∀ (n : ℕ) (a : ℚ),
      (List.range n).foldl step a = a + ∑ i in Finset.range n, F i := by
  intro n
  induction n with
  | zero => intro a; simp
  | succ n ih =>
      intro a
      rw [List.range_succ, List.foldl_append, List.foldl_cons, List.foldl_nil,
        hstep, ih, Finset.sum_range_succ, add_assoc]

/-- A spin read off a well-formed configuration is `0` or `1`. -/
theorem getD_spin_cases (c : SpinConfig1D)
    (hspin : ∀ x ∈ c.config, x = 0 ∨ x = 1) (i : ℕ) :
    c.config.getD i 0 = 0 ∨ c.config.getD i 0 = 1 := by
  by_cases hi : i < c.config.length
  · rw [List.getD_eq_getElem c.config 0 hi]
    exact hspin _ (List.getElem_mem hi)
  · rw [List.getD_eq_default c.config 0 (le_of_not_lt hi)]
    exact Or.inl rfl

/-- Claim C1: for a spin configuration of length `N` with spins in `{0,1}`,
`expectation_value` is the sum of the bond term (each adjacent pair
`(i, i+1)`, `i ∈ [0, N-2]`, contributing `-J` when equal and `+J` when
unequal, plus the wraparound pair `(N-1, 0)` under the same rule exactly
when `pbc`) and of the field term (each site contributing `-mu*h[i]` when
up, `+mu*h[i]` when down), with no normalization by `N`. -/
theorem expectation_value_eq_bond_add_field (H : IsingHamiltonian1D)
    (c : SpinConfig1D) (hN : 0 < c.N) (hlen : c.config.length = c.N)
    (hspin : ∀ x ∈ c.config, x = 0 ∨ x = 1) :
    H.expectation_value c =
      (∑ i in Finset.range (c.N - 1),
          if c.config.getD i 0 = c.config.getD (i + 1) 0 then -H.J else H.J)
        + (if H.pbc then
            (if c.config.getD (c.N - 1) 0 = c.config.getD 0 0 then -H.J else H.J)
          else 0)
        + ∑ i in Finset.range c.N,
            if c.config.getD i 0 = 1 then -(H.mu * H.h.getD i 0)
            else H.mu * H.h.getD i 0 := by
  have hbond :
      (List.range (c.N - 1)).foldl
        (fun e i =>
          if c.config.getD i 0 = c.config.getD (i + 1) 0 then e - H.J
          else e + H.J)
        0
      = 0 + ∑ i in Finset.range (c.N - 1),
          (if c.config.getD i 0 = c.config.getD (i + 1) 0 then -H.J else H.J) :=
    foldl_range_step_sum _ _ (fun e i => by split <;> ring) _ _
  have hfield : ∀ a : ℚ,
      (List.range c.N).foldl
        (fun e i =>
          if c.config.getD i 0 ≠ 0 then e - H.mu * H.h.getD i 0
          else e + H.mu * H.h.getD i 0)
        a
      = a + ∑ i in Finset.range c.N,
          (if c.config.getD i 0 ≠ 0 then -(H.mu * H.h.getD i 0)
           else H.mu * H.h.getD i 0) :=
    fun a => foldl_range_step_sum _ _ (fun e i => by split <;> ring) _ _
  have hfieldcongr :
      (∑ i in Finset.range c.N,
          (if c.config.getD i 0 ≠ 0 then -(H.mu * H.h.getD i 0)
           else H.mu * H.h.getD i 0))
      = ∑ i in Finset.range c.N,
          (if c.config.getD i 0 = 1 then -(H.mu * H.h.getD i 0)
           else H.mu * H.h.getD i 0) := by
    refine Finset.sum_congr rfl (fun i _ => ?_)
    rcases getD_spin_cases c hspin i with h0 | h1
    · rw [h0]; norm_num
    · rw [h1]; norm_num
  show
    (List.range c.N).foldl _
      (if H.pbc then
        if c.config.getD (c.N - 1) 0 = c.config.getD 0 0 then
          (List.range (c.N - 1)).foldl _ 0 - H.J
        else (List.range (c.N - 1)).foldl _ 0 + H.J
      else (List.range (c.N - 1)).foldl _ 0) = _
  rw [hfield, hfieldcongr, hbond]
  cases hpb : H.pbc with
  | false => simp only [Bool.false_eq_true, if_false]; ring
  | true => simp only [if_true]; split <;> ring

/-- Claim C1 witness: a 3-site ring with `J = 1`, `mu = 2`, uniform unit
field and configuration `[1, 0, 1]` has energy `-1`. -/
theorem expectation_value_eq_bond_add_field_witness :
    IsingHamiltonian1D.expectation_value ⟨1, [1, 1, 1], 2, true⟩ ⟨3, true, [1, 0, 1]⟩
      = -1 := by
  rw [expectation_value_eq_bond_add_field ⟨1, [1, 1, 1], 2, true⟩ ⟨3, true, [1, 0, 1]⟩
    (by norm_num) rfl (by decide)]
  norm_num [Finset.sum_range_succ, List.getD]

/-! ### `npIndex` case analysis -/

theorem npIndex_of_nonneg (len : ℕ) (i : ℤ) (h0 : 0 ≤ i) (h1 : i < (len : ℤ)) :
    npIndex len i = some i.toNat := by
  unfold npIndex
  rw [if_pos ⟨h0, h1⟩]

theorem npIndex_of_neg (len : ℕ) (i : ℤ) (h0 : -(len : ℤ) ≤ i) (h1 : i < 0) :
    npIndex len i = some (i + len).toNat := by
  unfold npIndex
  rw [if_neg (by omega), if_pos ⟨h0, h1⟩]

theorem npIndex_of_out (len : ℕ) (i : ℤ) (h : i < -(len : ℤ) ∨ (len : ℤ) ≤ i) :
    npIndex len i = none := by
  unfold npIndex
  rw [if_neg (by omega), if_neg (by omega)]

/-- The value `delta_e_for_flip` actually returns at a valid site, phrased
with `flipAt`. -/
theorem delta_e_for_flip_ok (H : IsingHamiltonian1D) (c : SpinConfig1D) (i : ℕ)
    (hi : i < c.N) (hlen : c.config.length = c.N) :
    H.delta_e_for_flip i c =
      .ok ((c.flipAt i,
        H.expectation_value (c.flipAt i) - H.expectation_value c), c) := by
  unfold IsingHamiltonian1D.delta_e_for_flip cp_deepcopy
  unfold SpinConfig1D.flip_site
  rw [npIndex_of_nonneg c.config.length i (Int.ofNat_nonneg i)
    (by rw [hlen]; exact_mod_cast hi)]
  simp [SpinConfig1D.flipAt]

/-- Claim C2: for every valid site index `i ∈ [0, N)`, `delta_e_for_flip`
returns the energy change `Energy(config after flipping i) − Energy(config)`
and the caller's configuration after the call is identical to the one before
(the flip is performed on a deep copy). -/
theorem delta_e_for_flip_consistent (H : IsingHamiltonian1D) (c : SpinConfig1D)
    (i : ℕ) (hi : i < c.N) (hlen : c.config.length = c.N) :
    H.delta_e_for_flip i c =
      .ok ((c.flipAt i,
        H.expectation_value (c.flipAt i) - H.expectation_value c), c) :=
  delta_e_for_flip_ok H c i hi hlen

/-- Claim C2 witness: flipping site 0 of `[0, 1]` under `J = 1`, `mu = 1`,
`h = [1, 1]`, pbc: the reported change is `-6 = (-4) - 2`, and the caller's
configuration `[0, 1]` is returned unchanged. -/
theorem delta_e_for_flip_consistent_witness :
    IsingHamiltonian1D.delta_e_for_flip ⟨1, [1, 1], 1, true⟩ ((0 : ℕ) : ℤ)
        ⟨2, true, [0, 1]⟩
      = .ok ((⟨2, true, [1, 1]⟩, -6), ⟨2, true, [0, 1]⟩) := by
  rw [delta_e_for_flip_consistent ⟨1, [1, 1], 1, true⟩ ⟨2, true, [0, 1]⟩ 0
    (by norm_num) rfl]
  simp only [Except.ok.injEq, Prod.mk.injEq]
  refine ⟨⟨rfl, ?_⟩, trivial⟩
  norm_num [IsingHamiltonian1D.expectation_value, SpinConfig1D.flipAt,
    List.range_succ, List.getD, flipVal]

/-- Claim C7 counterexample: on the configuration `[0, 1]` (`N = 2`), the
negative index `-1` does not raise: `__getitem__(-1)` returns the last spin
and `flip_site(-1)` toggles the last site (numpy negative indexing). -/
theorem getitem_negative_index_counterexample :
    SpinConfig1D.getitem ⟨2, true, [0, 1]⟩ (-1) = .ok 1
      ∧ SpinConfig1D.flip_site ⟨2, true, [0, 1]⟩ (-1) = .ok ⟨2, true, [0, 0]⟩ := by
  constructor <;> rfl

/-- Claim C7 (amended): `__getitem__(i)` and `flip_site(i)` raise exactly for
`i` outside `[-N, N)`; for `i ∈ [0, N)` they read resp. toggle site `i`, and
for `i ∈ [-N, 0)` they read resp. toggle site `N + i` (numpy negative
indexing), contrary to the claim that every negative index fails. -/
theorem getitem_flip_site_index_ranges (c : SpinConfig1D)
    (hlen : c.config.length = c.N) (i : ℤ) :
    ((i < -(c.N : ℤ) ∨ (c.N : ℤ) ≤ i) →
        c.getitem i = .error .indexOutOfRange
          ∧ c.flip_site i = .error .indexOutOfRange)
      ∧ (0 ≤ i → i < (c.N : ℤ) →
          c.getitem i = .ok (c.config.getD i.toNat 0)
            ∧ c.flip_site i = .ok (c.flipAt i.toNat))
      ∧ (-(c.N : ℤ) ≤ i → i < 0 →
          c.getitem i = .ok (c.config.getD (i + c.N).toNat 0)
            ∧ c.flip_site i = .ok (c.flipAt (i + c.N).toNat)) := by
  refine ⟨fun h => ?_, fun h0 h1 => ?_, fun h0 h1 => ?_⟩
  · have hn : npIndex c.config.length i = none := by
      rw [hlen]; exact npIndex_of_out c.N i h
    constructor
    · unfold SpinConfig1D.getitem; rw [hn]
    · unfold SpinConfig1D.flip_site; rw [hn]
  · have hn : npIndex c.config.length i = some i.toNat := by
      rw [hlen]; exact npIndex_of_nonneg c.N i h0 h1
    constructor
    · unfold SpinConfig1D.getitem; rw [hn]
    · unfold SpinConfig1D.flip_site; rw [hn]; rfl
  · have hn : npIndex c.config.length i = some (i + c.N).toNat := by
      rw [hlen]; exact npIndex_of_neg c.N i h0 h1
    constructor
    · unfold SpinConfig1D.getitem; rw [hn]
    · unfold SpinConfig1D.flip_site; rw [hn]; rfl

/-- Claim C7 witness: on `[0, 1]` the out-of-range index `5` raises for both
operations, index `1` reads spin `1`, and index `-2` reads site `0`. -/
theorem getitem_flip_site_index_ranges_witness :
    (SpinConfig1D.getitem ⟨2, true, [0, 1]⟩ 5 = .error .indexOutOfRange
        ∧ SpinConfig1D.flip_site ⟨2, true, [0, 1]⟩ 5 = .error .indexOutOfRange)
      ∧ SpinConfig1D.getitem ⟨2, true, [0, 1]⟩ 1
          = .ok (([0, 1] : List ℤ).getD ((1 : ℤ).toNat) 0)
      ∧ SpinConfig1D.getitem ⟨2, true, [0, 1]⟩ (-2)
          = .ok (([0, 1] : List ℤ).getD ((-2 + (2 : ℕ) : ℤ).toNat) 0) :=
  ⟨(getitem_flip_site_index_ranges ⟨2, true, [0, 1]⟩ rfl 5).1 (Or.inr (by norm_num)),
    ((getitem_flip_site_index_ranges ⟨2, true, [0, 1]⟩ rfl 1).2.1 (by norm_num)
      (by norm_num)).1,
    ((getitem_flip_site_index_ranges ⟨2, true, [0, 1]⟩ rfl (-2)).2.2 (by norm_num)
      (by norm_num)).1⟩

/-! ### Integer encoding (modelled from the spec) -/

/-- Modelled from the spec: `set_int_config` (`SetFromInteger`) is called by
the test suite (`conf.set_int_config(44)`) but is absent from the shipped
module.  Following §4.1 of the design document: `0 ≤ value < 2^N` is
required (fails with `EncodingRangeError` otherwise), and `spins[i]` is set
deterministically to the i-th bit of the value's binary expansion
(least-significant-bit-first convention, fixed here once). -/
def SpinConfig1D.set_int_config (c : SpinConfig1D) (v : ℤ) :
    Except MCError SpinConfig1D :=
  if 0 ≤ v ∧ v < 2 ^ c.N then
    .ok { c with
          config := (List.range c.N).map fun i => if v.toNat.testBit i then 1 else 0 }
  else .error .encodingRange

/-- Reading back all `N` sites and reconstructing the integer with the same
least-significant-bit-first convention. -/
def SpinConfig1D.toInt (c : SpinConfig1D) : ℕ :=
  ∑ i in Finset.range c.N, if c.config.getD i 0 = 1 then 2 ^ i else 0

/-! ### The configuration invariant (spec §3) -/

/-- The data-model invariant: the spin list has length `N` and every spin is
`0` or `1`. -/
def SpinInvariant (c : SpinConfig1D) : Prop :=
  c.config.length = c.N ∧ ∀ x ∈ c.config, x = 0 ∨ x = 1

/-- `flipVal` only produces `0` or `1`. -/
theorem flipVal_cases (x : ℤ) : flipVal x = 0 ∨ flipVal x = 1 := by
  unfold flipVal; split
  · exact Or.inl rfl
  · exact Or.inr rfl

/-- Setting a list of sites to `1` keeps the length. -/
theorem length_foldl_set :
    ∀ (s : List ℕ) (l : List ℤ),
      (s.foldl (fun l i => l.set i 1) l).length = l.length := by
  intro s
  induction s with
  | nil => intro l; rfl
  | cons a s ih => intro l; rw [List.foldl_cons, ih, List.length_set]

/-- Setting a list of sites to `1` keeps every element in `{0, 1}`. -/
theorem mem_foldl_set :
    ∀ (s : List ℕ) (l : List ℤ), (∀ x ∈ l, x = 0 ∨ x = 1) →
      ∀ x ∈ s.foldl (fun l i => l.set i 1) l, x = 0 ∨ x = 1 := by
  intro s
  induction s with
  | nil => intro l hl; exact hl
  | cons a s ih =>
      intro l hl
      rw [List.foldl_cons]
      refine ih _ (fun x hx => ?_)
      rcases List.mem_or_eq_of_mem_set hx with h | h
      · exact hl x h
      · exact Or.inr h

/-- Claim C8: construction, `initialize`, `set_int_config` and `flip_site`
all preserve the invariant `len(spins) = N` with every spin exactly `0` or
`1`. -/
theorem spin_invariant_preserved :
    (∀ (N : ℕ) (pbc : Bool), SpinInvariant (mkSpinConfig1D N pbc))
      ∧ (∀ (c : SpinConfig1D) (M : ℕ) (s : List ℕ) (c' : SpinConfig1D),
          SpinInvariant c → SpinConfig1D.initialize c M s = .ok c' →
            SpinInvariant c')
      ∧ (∀ (c : SpinConfig1D) (v : ℤ) (c' : SpinConfig1D),
          SpinInvariant c → SpinConfig1D.set_int_config c v = .ok c' →
            SpinInvariant c')
      ∧ (∀ (c : SpinConfig1D) (i : ℤ) (c' : SpinConfig1D),
          SpinInvariant c → SpinConfig1D.flip_site c i = .ok c' →
            SpinInvariant c') := by
  refine ⟨fun N pbc => ⟨List.length_replicate N 0, fun x hx => ?_⟩,
    fun c M s c' _ h => ?_, fun c v c' _ h => ?_, fun c i c' hc h => ?_⟩
  · exact Or.inl (List.eq_of_mem_replicate hx)
  · unfold SpinConfig1D.initialize at h
    split at h
    · cases h
      refine ⟨?_, ?_⟩
      · rw [length_foldl_set, List.length_replicate]
      · exact mem_foldl_set s _ (fun x hx => Or.inl (List.eq_of_mem_replicate hx))
    · cases h
  · unfold SpinConfig1D.set_int_config at h
    split at h
    · cases h
      refine ⟨by rw [List.length_map, List.length_range], fun x hx => ?_⟩
      rcases List.mem_map.mp hx with ⟨i, _, hi⟩
      revert hi
      split
      · intro hi; exact Or.inr hi.symm
      · intro hi; exact Or.inl hi.symm
    · cases h
  · unfold SpinConfig1D.flip_site at h
    rcases hn : npIndex c.config.length i with _ | j <;> rw [hn] at h
    · cases h
    · cases h
      refine ⟨by rw [List.length_set]; exact hc.1, fun x hx => ?_⟩
      rcases List.mem_or_eq_of_mem_set hx with hmem | hval
      · exact hc.2 x hmem
      · rw [hval]; exact flipVal_cases _

/-- Claim C8 witness: flipping site 0 of the invariant-satisfying `[0, 1]`
yields a configuration satisfying the invariant. -/
theorem spin_invariant_preserved_witness :
    SpinInvariant ⟨2, true, [1, 1]⟩ :=
  spin_invariant_preserved.2.2.2 ⟨2, true, [0, 1]⟩ 0 ⟨2, true, [1, 1]⟩
    ⟨rfl, by decide⟩ rfl

/-- Claim C9: on a configuration whose spins are all `0` or `1`, flipping a
valid site twice with no other mutation restores the original configuration
(the flipped spin returns to its value and no other site is touched). -/
theorem flip_site_involution (c : SpinConfig1D) (i : ℕ)
    (hi : i < c.config.length) (hspin : ∀ x ∈ c.config, x = 0 ∨ x = 1) :
    ∃ c₁, c.flip_site i = .ok c₁ ∧ c₁.flip_site i = .ok c := by
  have hnp : npIndex c.config.length (i : ℤ) = some i := by
    rw [npIndex_of_nonneg c.config.length i (Int.ofNat_nonneg i) (by exact_mod_cast hi)]
    simp
  refine ⟨c.flipAt i, ?_, ?_⟩
  · unfold SpinConfig1D.flip_site
    rw [hnp]
    rfl
  · unfold SpinConfig1D.flip_site SpinConfig1D.flipAt
    have hlen1 : (c.config.set i (flipVal (c.config.getD i 0))).length
        = c.config.length := List.length_set ..
    rw [show npIndex (c.config.set i (flipVal (c.config.getD i 0))).length (i : ℤ)
          = some i by rw [hlen1]; exact hnp]
    dsimp only
    have hget : (c.config.set i (flipVal (c.config.getD i 0))).getD i 0
        = flipVal (c.config.getD i 0) := by
      rw [List.getD_eq_getElem _ _ (by rw [hlen1]; exact hi)]
      exact List.getElem_set_self (by rw [hlen1]; exact hi)
    rw [hget, List.set_set]
    have hval : flipVal (flipVal (c.config.getD i 0)) = c.config.getD i 0 := by
      rcases getD_spin_cases c hspin i with h | h <;> rw [h] <;> rfl
    rw [hval]
    have hsetself : c.config.set i (c.config.getD i 0) = c.config := by
      refine List.ext_getElem (by rw [List.length_set]) (fun n h1 h2 => ?_)
      rcases eq_or_ne i n with rfl | hne
      · rw [List.getElem_set_self h1, List.getD_eq_getElem _ _ h2]
      · exact List.getElem_set_ne hne _
    rw [hsetself]

/-- Claim C9 witness: flipping site 0 of `[0, 1]` twice returns `[0, 1]`. -/
theorem flip_site_involution_witness :
    ∃ c₁, SpinConfig1D.flip_site ⟨2, true, [0, 1]⟩ ((0 : ℕ) : ℤ) = .ok c₁
      ∧ SpinConfig1D.flip_site c₁ ((0 : ℕ) : ℤ) = .ok ⟨2, true, [0, 1]⟩ :=
  flip_site_involution ⟨2, true, [0, 1]⟩ 0 (by norm_num) (by decide)

/-- `getD` of an all-zero list with default `0` is `0` at every index. -/
theorem getD_replicate_zero (n j : ℕ) : (List.replicate n (0 : ℤ)).getD j 0 = 0 := by
  by_cases hj : j < (List.replicate n (0 : ℤ)).length
  · rw [List.getD_eq_getElem _ _ hj, List.getElem_replicate]
  · rw [List.getD_eq_default _ _ (le_of_not_lt hj)]

/-- Setting sites that all differ from `j` leaves site `j` unchanged. -/
theorem foldl_set_getD_of_not_mem :
    ∀ (s : List ℕ) (l : List ℤ) (j : ℕ), (∀ x ∈ s, x ≠ j) →
      (s.foldl (fun l i => l.set i 1) l).getD j 0 = l.getD j 0 := by
  intro s
  induction s with
  | nil => intro l j _; rfl
  | cons a s ih =>
      intro l j hs
      rw [List.foldl_cons, ih _ _ (fun x hx => hs x (List.mem_cons_of_mem a hx))]
      have ha : a ≠ j := hs a (List.mem_cons_self a s)
      by_cases hj : j < l.length
      · rw [List.getD_eq_getElem _ _ (by rw [List.length_set]; exact hj),
          List.getD_eq_getElem _ _ hj]
        exact List.getElem_set_ne ha _
      · rw [List.getD_eq_default _ _ (le_of_not_lt hj),
          List.getD_eq_default _ _ (by rw [List.length_set]; exact le_of_not_lt hj)]

/-- Claim C10: for `0 ≤ M ≤ N-1` and every outcome of
`random.sample(range(0, N-1), M)`, `initialize(M)` succeeds and leaves the
last site (index `N-1`) down: the sampled set is drawn from
`{0, …, N-2}`, which never contains `N-1`. -/
theorem initialize_last_site_down (c : SpinConfig1D) (M : ℕ) (sample : List ℕ)
    (hN : 0 < c.N) (hM : M ≤ c.N - 1) (hsamp : IsSample c.N M sample) :
    ∃ c', SpinConfig1D.initialize c M sample = .ok c'
      ∧ c'.config.getD (c.N - 1) 0 = 0 := by
  refine ⟨_, by unfold SpinConfig1D.initialize; rw [if_pos hM], ?_⟩
  have hne : ∀ x ∈ sample, x ≠ c.N - 1 := fun x hx =>
    Nat.ne_of_lt (hsamp.2.2 x hx)
  rw [foldl_set_getD_of_not_mem sample _ (c.N - 1) hne, getD_replicate_zero]

/-- Claim C10 witness: `N = 2`, `M = 1`, sample `[0]`: the call succeeds and
site 1 stays down. -/
theorem initialize_last_site_down_witness :
    ∃ c', SpinConfig1D.initialize ⟨2, true, [1, 1]⟩ 1 [0] = .ok c'
      ∧ c'.config.getD (2 - 1) 0 = 0 :=
  initialize_last_site_down ⟨2, true, [1, 1]⟩ 1 [0] (by norm_num) (by norm_num)
    ⟨by decide, rfl, by decide⟩

/-- Claim C5 (code bug): `initialize` draws from `range(0, N-1)`, a
population of `N - 1` sites, so at `N = 2` the in-spec call
`initialize(M = 2)` (i.e. `M = N`) raises `random.sample`'s `ValueError`
instead of succeeding, and site `N-1` can never be set up. -/
theorem initialize_M_eq_N_raises :
    SpinConfig1D.initialize (mkSpinConfig1D 2 true) 2 [] = .error .valueError := rfl

/-- Reconstructing a natural number below `2^N` from its first `N` bits,
least-significant first. -/
theorem sum_testBit_eq (N : ℕ) :
    ∀ n < 2 ^ N, (∑ i in Finset.range N, if n.testBit i then 2 ^ i else 0) = n := by
  induction N with
  | zero =>
      intro n hn
      rw [pow_zero, Nat.lt_one_iff] at hn
      rw [hn, Finset.sum_range_zero]
  | succ N ih =>
      intro n hn
      have h2 : n / 2 < 2 ^ N := by
        rw [Nat.div_lt_iff_lt_mul Nat.zero_lt_two]
        rw [pow_succ] at hn
        exact hn
      rw [Finset.sum_range_succ']
      have hshift :
          (∑ i in Finset.range N, if n.testBit (i + 1) then 2 ^ (i + 1) else 0)
            = 2 * ∑ i in Finset.range N, if (n / 2).testBit i then 2 ^ i else 0 := by
        rw [Finset.mul_sum]
        refine Finset.sum_congr rfl (fun i _ => ?_)
        rw [Nat.testBit_add_one]
        split
        · rw [pow_succ]; ring
        · rw [Nat.mul_zero]
      rw [hshift, ih (n / 2) h2]
      have hbit0 : (if n.testBit 0 then 2 ^ 0 else 0) = n % 2 := by
        rw [Nat.testBit_zero]
        rcases Nat.mod_two_eq_zero_or_one n with h | h <;> rw [h] <;> simp
      rw [hbit0]
      exact Nat.div_add_mod n 2

/-- Claim C6: `set_int_config(v)` for `v ∈ [0, 2^N)` succeeds, and reading
back all `N` sites and reconstructing an integer with the same
least-significant-bit-first convention yields `v` again; every value
outside `[0, 2^N)` fails with `EncodingRangeError`. -/
theorem set_int_config_round_trip (c : SpinConfig1D) (v : ℤ) :
    (0 ≤ v → v < 2 ^ c.N →
        ∃ c', SpinConfig1D.set_int_config c v = .ok c'
          ∧ (SpinConfig1D.toInt c' : ℤ) = v)
      ∧ (¬ (0 ≤ v ∧ v < 2 ^ c.N) →
          SpinConfig1D.set_int_config c v = .error .encodingRange) := by
  constructor
  · intro h0 h1
    refine ⟨_, by unfold SpinConfig1D.set_int_config; rw [if_pos ⟨h0, h1⟩], ?_⟩
    unfold SpinConfig1D.toInt
    dsimp only
    have hv : v.toNat < 2 ^ c.N :=
      (Int.toNat_lt h0).mpr (show v < ((2 ^ c.N : ℕ) : ℤ) by push_cast; exact h1)
    have hsum :
        (∑ i in Finset.range c.N,
            if ((List.range c.N).map fun i =>
                if v.toNat.testBit i then (1 : ℤ) else 0).getD i 0 = 1
            then 2 ^ i else 0)
          = ∑ i in Finset.range c.N, if v.toNat.testBit i then 2 ^ i else 0 := by
      refine Finset.sum_congr rfl (fun i hi => ?_)
      have hi' : i < c.N := Finset.mem_range.mp hi
      have hgd : ((List.range c.N).map fun i =>
          if v.toNat.testBit i then (1 : ℤ) else 0).getD i 0
            = if v.toNat.testBit i then (1 : ℤ) else 0 := by
        rw [List.getD_eq_getElem _ _ (by
          rw [List.length_map, List.length_range]; exact hi')]
        rw [List.getElem_map, List.getElem_range]
      rw [hgd]
      split
      · rw [if_pos rfl]
      · rw [if_neg (by norm_num)]
    rw [hsum, sum_testBit_eq c.N v.toNat hv, Int.toNat_of_nonneg h0]
  · intro h
    unfold SpinConfig1D.set_int_config
    rw [if_neg h]

/-- Claim C6 witness: on a 3-site chain, `set_int_config(5)` succeeds and
reads back as `5`, and `set_int_config(8)` (and `-1`) fail with
`EncodingRangeError`. -/
theorem set_int_config_round_trip_witness :
    (∃ c', SpinConfig1D.set_int_config (mkSpinConfig1D 3 true) 5 = .ok c'
        ∧ (SpinConfig1D.toInt c' : ℤ) = 5)
      ∧ SpinConfig1D.set_int_config (mkSpinConfig1D 3 true) 8
          = .error .encodingRange
      ∧ SpinConfig1D.set_int_config (mkSpinConfig1D 3 true) (-1)
          = .error .encodingRange :=
  ⟨(set_int_config_round_trip (mkSpinConfig1D 3 true) 5).1 (by norm_num)
      (by decide),
    (set_int_config_round_trip (mkSpinConfig1D 3 true) 8).2 (by decide),
    (set_int_config_round_trip (mkSpinConfig1D 3 true) (-1)).2 (by decide)⟩

/-! ### Exact thermal averaging (modelled from the spec) -/

/-- Modelled from the spec (§4.3): the magnetization of a microstate,
`M_s = #up − #down`, each site contributing `+1` when up and `-1` when down
(unnormalized convention). -/
def SpinConfig1D.magnetization (c : SpinConfig1D) : ℤ :=
  ∑ i in Finset.range c.N, if c.config.getD i 0 = 1 then 1 else -1

/-- The microstate of length `N` encoded by the integer `v`, via the same
least-significant-bit-first convention as `set_int_config`. -/
def microstate (N : ℕ) (v : ℕ) : SpinConfig1D :=
  ⟨N, true, (List.range N).map fun i => if v.testBit i then 1 else 0⟩

/-- Energy of the `v`-th microstate as a real number. -/
noncomputable def microE (H : IsingHamiltonian1D) (N : ℕ) (v : ℕ) : ℝ :=
  ((H.expectation_value (microstate N v) : ℚ) : ℝ)

/-- Magnetization of the `v`-th microstate. -/
def microM (N : ℕ) (v : ℕ) : ℤ :=
  SpinConfig1D.magnetization (microstate N v)

/-- Boltzmann weight `w_s = exp(-E_s / T)` of the `v`-th microstate. -/
noncomputable def boltzmannWeight (H : IsingHamiltonian1D) (N : ℕ) (T : ℝ)
    (v : ℕ) : ℝ :=
  Real.exp (-(microE H N v) / T)

/-- Modelled from the spec (§4.3): the accumulation loop of
`compute_average_values` over the microstates `v = 0, …, 2^N - 1`, building
the running sums `(Z, Σ w E, Σ w E², Σ w M, Σ w M²)`. -/
noncomputable def boltzmannAcc (H : IsingHamiltonian1D) (N : ℕ) (T : ℝ) :
    ℝ × ℝ × ℝ × ℝ × ℝ :=
  (List.range (2 ^ N)).foldl
    (fun a v =>
      (a.1 + boltzmannWeight H N T v,
       a.2.1 + boltzmannWeight H N T v * microE H N v,
       a.2.2.1 + boltzmannWeight H N T v * microE H N v ^ 2,
       a.2.2.2.1 + boltzmannWeight H N T v * (microM N v : ℝ),
       a.2.2.2.2 + boltzmannWeight H N T v * (microM N v : ℝ) ^ 2))
    (0, 0, 0, 0, 0)

/-- Modelled from the spec: `compute_average_values` (`ComputeAverageValues`)
is called by the test suite but absent from the shipped module.  Following
§4.3: for `T ≤ 0` it fails with `InvalidTemperatureError` before doing any
work; otherwise it enumerates all `2^N` microstates, forms the
Boltzmann-weighted sums, and returns
`(⟨E⟩, ⟨M⟩, (⟨E²⟩-⟨E⟩²)/T², (⟨M²⟩-⟨M⟩²)/T)`. -/
noncomputable def IsingHamiltonian1D.compute_average_values
    (H : IsingHamiltonian1D) (N : ℕ) (T : ℝ) :
    Except MCError (ℝ × ℝ × ℝ × ℝ) :=
  if T ≤ 0 then .error .invalidTemperature
  else
    .ok ((boltzmannAcc H N T).2.1 / (boltzmannAcc H N T).1,
      (boltzmannAcc H N T).2.2.2.1 / (boltzmannAcc H N T).1,
      ((boltzmannAcc H N T).2.2.1 / (boltzmannAcc H N T).1
          - ((boltzmannAcc H N T).2.1 / (boltzmannAcc H N T).1) ^ 2) / T ^ 2,
      ((boltzmannAcc H N T).2.2.2.2 / (boltzmannAcc H N T).1
          - ((boltzmannAcc H N T).2.2.2.1 / (boltzmannAcc H N T).1) ^ 2) / T)

/-- Five running sums at once: the 5-tuple analogue of
`foldl_range_step_sum`. -/
theorem foldl_range_step_sum5 (F1 F2 F3 F4 F5 : ℕ → ℝ)
    (step : ℝ × ℝ × ℝ × ℝ × ℝ → ℕ → ℝ × ℝ × ℝ × ℝ × ℝ)
    (hstep : ∀ a v, step a v =
      (a.1 + F1 v, a.2.1 + F2 v, a.2.2.1 + F3 v, a.2.2.2.1 + F4 v,
        a.2.2.2.2 + F5 v)) :
    ∀ (n : ℕ) (a : ℝ × ℝ × ℝ × ℝ × ℝ),
      (List.range n).foldl step a =
        (a.1 + ∑ v in Finset.range n, F1 v,
         a.2.1 + ∑ v in Finset.range n, F2 v,
         a.2.2.1 + ∑ v in Finset.range n, F3 v,
         a.2.2.2.1 + ∑ v in Finset.range n, F4 v,
         a.2.2.2.2 + ∑ v in Finset.range n, F5 v) := by
  intro n
  induction n with
  | zero => intro a; simp
  | succ n ih =>
      intro a
      rw [List.range_succ, List.foldl_append, List.foldl_cons, List.foldl_nil,
        ih, hstep]
      simp [Finset.sum_range_succ, add_assoc]

/-- The accumulator equals the five Boltzmann sums. -/
theorem boltzmannAcc_eq (H : IsingHamiltonian1D) (N : ℕ) (T : ℝ) :
    boltzmannAcc H N T =
      (∑ v in Finset.range (2 ^ N), boltzmannWeight H N T v,
       ∑ v in Finset.range (2 ^ N), boltzmannWeight H N T v * microE H N v,
       ∑ v in Finset.range (2 ^ N), boltzmannWeight H N T v * microE H N v ^ 2,
       ∑ v in Finset.range (2 ^ N), boltzmannWeight H N T v * (microM N v : ℝ),
       ∑ v in Finset.range (2 ^ N),
         boltzmannWeight H N T v * (microM N v : ℝ) ^ 2) := by
  unfold boltzmannAcc
  rw [foldl_range_step_sum5 _ _ _ _ _ _ (fun a v => rfl)]
  simp only [zero_add]

/-- Claim C3: `compute_average_values` fails with `InvalidTemperatureError`
for every `T ≤ 0`, and for `T > 0` enumerates all `2^N` microstates and
returns `(⟨E⟩, ⟨M⟩, HC, MS)` where each mean is the Boltzmann-weighted sum
divided by `Z`, `HC = (⟨E²⟩-⟨E⟩²)/T²` and `MS = (⟨M²⟩-⟨M⟩²)/T`. -/
theorem compute_average_values_spec (H : IsingHamiltonian1D) (N : ℕ) (T : ℝ) :
    (T ≤ 0 →
        IsingHamiltonian1D.compute_average_values H N T
          = .error .invalidTemperature)
      ∧ (0 < T →
          IsingHamiltonian1D.compute_average_values H N T =
            .ok
              ((∑ v in Finset.range (2 ^ N),
                    boltzmannWeight H N T v * microE H N v) /
                  ∑ v in Finset.range (2 ^ N), boltzmannWeight H N T v,
               (∑ v in Finset.range (2 ^ N),
                    boltzmannWeight H N T v * (microM N v : ℝ)) /
                  ∑ v in Finset.range (2 ^ N), boltzmannWeight H N T v,
               ((∑ v in Finset.range (2 ^ N),
                      boltzmannWeight H N T v * microE H N v ^ 2) /
                    (∑ v in Finset.range (2 ^ N), boltzmannWeight H N T v)
                  - ((∑ v in Finset.range (2 ^ N),
                        boltzmannWeight H N T v * microE H N v) /
                      ∑ v in Finset.range (2 ^ N), boltzmannWeight H N T v) ^ 2)
                 / T ^ 2,
               ((∑ v in Finset.range (2 ^ N),
                      boltzmannWeight H N T v * (microM N v : ℝ) ^ 2) /
                    (∑ v in Finset.range (2 ^ N), boltzmannWeight H N T v)
                  - ((∑ v in Finset.range (2 ^ N),
                        boltzmannWeight H N T v * (microM N v : ℝ)) /
                      ∑ v in Finset.range (2 ^ N), boltzmannWeight H N T v) ^ 2)
                 / T)) := by
  constructor
  · intro hT
    unfold IsingHamiltonian1D.compute_average_values
    rw [if_pos hT]
  · intro hT
    unfold IsingHamiltonian1D.compute_average_values
    rw [if_neg (not_le.mpr hT), boltzmannAcc_eq]

/-- Claim C3 witness: at `T = -1` the averager reports the invalid
temperature. -/
theorem compute_average_values_spec_witness :
    IsingHamiltonian1D.compute_average_values ⟨1, [1], 1, true⟩ 1 (-1)
      = .error .invalidTemperature :=
  (compute_average_values_spec ⟨1, [1], 1, true⟩ 1 (-1)).1 (by norm_num)

/-! ### Metropolis sampling (modelled from the spec) -/

/-- The energy change `delta_e_for_flip(i, config)` reports at a valid site
`i` (see `delta_e_for_flip_ok`): `Energy(flipped) - Energy(config)`. -/
def IsingHamiltonian1D.deltaE (H : IsingHamiltonian1D) (i : ℕ)
    (c : SpinConfig1D) : ℚ :=
  H.expectation_value (SpinConfig1D.flipAt c i) - H.expectation_value c

/-- The Metropolis acceptance rule of §4.4: accept when `ΔE ≤ 0` or the
drawn uniform `u` satisfies `u < exp(-ΔE / T)`. -/
def metropolis_accept (dE T u : ℝ) : Prop :=
  dE ≤ 0 ∨ u < Real.exp (-dE / T)

open Classical in
/-- One site visit of the sweep: state is (configuration, position in the
random stream `us`); one uniform draw is consumed whether or not the flip is
accepted. -/
noncomputable def metropolis_site_step (H : IsingHamiltonian1D) (T : ℝ)
    (us : ℕ → ℝ) (st : SpinConfig1D × ℕ) (i : ℕ) : SpinConfig1D × ℕ :=
  if metropolis_accept ((H.deltaE i st.1 : ℚ) : ℝ) T (us st.2)
  then ( SpinConfig1D.flipAt st.1 i, st.2 + 1)
  else (st.1, st.2 + 1)

/-- Modelled from the spec: `metropolis_sweep` (`MetropolisSweep`) is called
by the test suite but absent from the shipped module.  Following §4.4: for
`T ≤ 0` it fails with `InvalidTemperatureError`; otherwise it visits the
sites `0, …, N-1` in index order, at each site computing the flip delta,
drawing the next uniform from the shared stream `us` (position `k` on
entry), and flipping exactly when the acceptance rule fires. -/
noncomputable def IsingHamiltonian1D.metropolis_sweep (H : IsingHamiltonian1D)
    (config : SpinConfig1D) (T : ℝ) (us : ℕ → ℝ) (k : ℕ) :
    Except MCError (SpinConfig1D × ℕ) :=
  if T ≤ 0 then .error .invalidTemperature
  else .ok ((List.range config.N).foldl (metropolis_site_step H T us) (config, k))

open Classical in
/-- The chain of intermediate configurations of one sweep: `sweepChain … j`
is the configuration after the first `j` site visits. -/
noncomputable def sweepChain (H : IsingHamiltonian1D) (T : ℝ) (us : ℕ → ℝ)
    (c₀ : SpinConfig1D) (k : ℕ) : ℕ → SpinConfig1D
  | 0 => c₀
  | j + 1 =>
      if metropolis_accept ((H.deltaE j (sweepChain H T us c₀ k j) : ℚ) : ℝ) T
          (us (k + j))
      then SpinConfig1D.flipAt (sweepChain H T us c₀ k j) j
      else sweepChain H T us c₀ k j

open Classical in
/-- The defining equation of `sweepChain` at a successor step. -/
theorem sweepChain_succ (H : IsingHamiltonian1D) (T : ℝ) (us : ℕ → ℝ)
    (c₀ : SpinConfig1D) (k j : ℕ) :
    sweepChain H T us c₀ k (j + 1)
      = if metropolis_accept ((H.deltaE j (sweepChain H T us c₀ k j) : ℚ) : ℝ) T
            (us (k + j))
        then SpinConfig1D.flipAt (sweepChain H T us c₀ k j) j
        else sweepChain H T us c₀ k j := rfl

/-- The sweep's fold visits the sites in order and consumes one draw per
site: after `n` visits the state is `(sweepChain … n, k + n)`. -/
theorem foldl_site_step_eq_sweepChain (H : IsingHamiltonian1D) (T : ℝ)
    (us : ℕ → ℝ) (c : SpinConfig1D) (k : ℕ) :
    ∀ n, (List.range n).foldl (metropolis_site_step H T us) (c, k)
      = (sweepChain H T us c k n, k + n) := by
  intro n
  induction n with
  | zero => rfl
  | succ n ih =>
      rw [List.range_succ, List.foldl_append, List.foldl_cons, List.foldl_nil, ih]
      unfold metropolis_site_step
      dsimp only
      by_cases ha :
        metropolis_accept ((H.deltaE n (sweepChain H T us c k n) : ℚ) : ℝ) T
          (us (k + n))
      · rw [if_pos ha, sweepChain_succ, if_pos ha]
        exact congrArg _ (by omega)
      · rw [if_neg ha, sweepChain_succ, if_neg ha]
        exact congrArg _ (by omega)

/-- Claim C4: `metropolis_sweep` fails with `InvalidTemperatureError` for
every `T ≤ 0`; for `T > 0` it visits every site exactly once in index order
`0 … N-1`, consuming exactly one uniform draw per site (stream position
`k + N` on exit), the configuration after visit `j+1` being the one after
visit `j` with site `j` flipped exactly when `ΔE ≤ 0` or `u < exp(-ΔE/T)`
for the `j`-th draw, and unchanged otherwise. -/
theorem metropolis_sweep_spec (H : IsingHamiltonian1D) (c : SpinConfig1D)
    (T : ℝ) (us : ℕ → ℝ) (k : ℕ) :
    (T ≤ 0 →
        H.metropolis_sweep c T us k = .error .invalidTemperature)
      ∧ (0 < T →
          H.metropolis_sweep c T us k
            = .ok (sweepChain H T us c k c.N, k + c.N))
      ∧ (∀ j,
          (metropolis_accept ((H.deltaE j (sweepChain H T us c k j) : ℚ) : ℝ) T
              (us (k + j)) →
            sweepChain H T us c k (j + 1)
              = SpinConfig1D.flipAt (sweepChain H T us c k j) j)
          ∧ (¬ metropolis_accept ((H.deltaE j (sweepChain H T us c k j) : ℚ) : ℝ) T
              (us (k + j)) →
            sweepChain H T us c k (j + 1) = sweepChain H T us c k j))
      ∧ (∀ dE u : ℝ,
          metropolis_accept dE T u ↔ dE ≤ 0 ∨ u < Real.exp (-dE / T)) := by
  refine ⟨fun hT => ?_, fun hT => ?_, fun j => ⟨fun ha => ?_, fun ha => ?_⟩,
    fun dE u => Iff.rfl⟩
  · unfold IsingHamiltonian1D.metropolis_sweep
    rw [if_pos hT]
  · unfold IsingHamiltonian1D.metropolis_sweep
    rw [if_neg (not_le.mpr hT), foldl_site_step_eq_sweepChain]
  · rw [sweepChain_succ, if_pos ha]
  · rw [sweepChain_succ, if_neg ha]

/-- Claim C4 witness: at `T = -1` the sweep reports the invalid temperature,
and the acceptance rule at `ΔE = 0, u = 0` is the stated disjunction. -/
theorem metropolis_sweep_spec_witness :
    IsingHamiltonian1D.metropolis_sweep ⟨1, [1], 1, true⟩ ⟨1, true, [0]⟩ (-1)
        (fun _ => 0) 0
      = .error .invalidTemperature
    ∧ (metropolis_accept 0 (-1) 0
        ↔ (0 : ℝ) ≤ 0 ∨ (0 : ℝ) < Real.exp (-0 / (-1))) :=
  ⟨(metropolis_sweep_spec ⟨1, [1], 1, true⟩ ⟨1, true, [0]⟩ (-1) (fun _ => 0) 0).1
      (by norm_num),
    (metropolis_sweep_spec ⟨1, [1], 1, true⟩ ⟨1, true, [0]⟩ (-1) (fun _ => 0) 0).2.2.2
      0 0⟩

end MonteCarlo
